import Mathlib

/-!
Verification of the specification of `netlify/edge-functions/ai-proxy.ts`.

The edge function is shallowly embedded: HTML texts and regex subjects are
modelled as `List Char`, header maps as association lists with
case-insensitive names (mirroring the JS `Headers` class), and the
platform `fetch` primitive as an oracle recorded in an environment record.
Line numbers in doc comments refer to the TypeScript source.
-/

set_option maxHeartbeats 1000000

/-! ## Character-list helpers -/

/-- Case-insensitive character comparison: the semantics of the `i` regex
flag (ASCII case folding via `Char.toLower`). -/
def ciChar (c d : Char) : Bool := c.toLower == d.toLower

/-- ASCII lowercasing of a string, the semantics of
`String.prototype.toLowerCase` on the ASCII subjects handled here (defined
over the character list so that it evaluates by `decide`). -/
def lowerStr (s : String) : String := String.mk (s.data.map Char.toLower)

/-- Exact list prefix test (JS string operations compare code units). -/
def prefB : List Char → List Char → Bool
  | [], _ => true
  | _ :: _, [] => false
  | c :: l, d :: s => c == d && prefB l s

/-- Exact substring test: `pat` occurs somewhere in the subject. -/
def infixB (pat : List Char) : List Char → Bool
  | [] => prefB pat []
  | s@(_ :: r) => prefB pat s || infixB pat r

/-- Index of the first exact occurrence of `pat` in the subject, the search
performed by `String.prototype.replace` with a plain string pattern. -/
def firstIdx (pat : List Char) : List Char → Option Nat
  | [] => if prefB pat [] then some 0 else none
  | s@(_ :: r) => if prefB pat s then some 0 else (firstIdx pat r).map (fun n => n + 1)

/-- JS `s.replace(pat, repl)` for a plain string pattern and a replacement
without `$` patterns: splice `repl` over the first occurrence of `pat`. -/
def replaceFirst (s pat repl : List Char) : List Char :=
  match firstIdx pat s with
  | some i => s.take i ++ repl ++ s.drop (i + pat.length)
  | none => s

/-! ## Header maps

JS `Headers` objects have case-insensitive names.  We model them as
association lists; `hGet` returns the first entry whose name matches
case-insensitively, `hSet` overwrites in place or appends, `hDelete`
removes all matching entries. -/

/-- Lookup, as `Headers.get` (null is modelled as `none`).  JS `Headers.get`
joins the values of duplicate names with `", "`; the lists built by this
embedding never carry duplicate names (`hSet` overwrites), so returning
the first case-insensitive match is observationally equivalent here. -/
def hGet (hs : List (String × String)) (k : String) : Option String :=
  (hs.find? (fun p => lowerStr p.1 == lowerStr k)).map (fun p => p.2)

/-- Overwriting insertion, as `Headers.set`: replaces the value of the first
entry whose name matches case-insensitively (keeping its stored casing),
else appends the new entry at the end. -/
def hSet (hs : List (String × String)) (k v : String) : List (String × String) :=
  match hs with
  | [] => [(k, v)]
  | p :: t => if lowerStr p.1 == lowerStr k then (p.1, v) :: t else p :: hSet t k v

/-- Removal, as `Headers.delete`. -/
def hDelete (hs : List (String × String)) (k : String) : List (String × String) :=
  hs.filter (fun p => !(lowerStr p.1 == lowerStr k))

theorem hGet_cons (p : String × String) (hs : List (String × String)) (k : String) :
    hGet (p :: hs) k =
      if lowerStr p.1 = lowerStr k then some p.2 else hGet hs k := by
  by_cases hp : lowerStr p.1 = lowerStr k
  · have hb : (lowerStr p.1 == lowerStr k) = true := by simpa using hp
    simp [hGet, List.find?, hb, hp]
  · have hb : (lowerStr p.1 == lowerStr k) = false := by simpa using hp
    simp [hGet, List.find?, hb, hp]

theorem hGet_hSet (hs : List (String × String)) (k v k' : String) :
    hGet (hSet hs k v) k' =
      if lowerStr k = lowerStr k' then some v else hGet hs k' := by
  induction hs with
  | nil =>
    by_cases heq : lowerStr k = lowerStr k'
    · have hb : (lowerStr k == lowerStr k') = true := by simpa using heq
      simp [hSet, hGet, List.find?, hb, heq]
    · have hb : (lowerStr k == lowerStr k') = false := by simpa using heq
      simp [hSet, hGet, List.find?, hb, heq]
  | cons p t ih =>
    by_cases hp : lowerStr p.1 = lowerStr k
    · have hb : (lowerStr p.1 == lowerStr k) = true := by simpa using hp
      have hset : hSet (p :: t) k v = (p.1, v) :: t := by
        simp [hSet, hb]
      by_cases heq : lowerStr k = lowerStr k'
      · have hp' : lowerStr p.1 = lowerStr k' := by rw [hp, heq]
        rw [hset, hGet_cons, if_pos hp', if_pos heq]
      · have hp' : ¬ lowerStr p.1 = lowerStr k' := by rw [hp]; exact heq
        rw [hset, hGet_cons, if_neg hp', if_neg heq, hGet_cons, if_neg hp']
    · have hb : (lowerStr p.1 == lowerStr k) = false := by simpa using hp
      have hset : hSet (p :: t) k v = p :: hSet t k v := by
        simp [hSet, hb]
      by_cases hp' : lowerStr p.1 = lowerStr k'
      · have heq : ¬ lowerStr k = lowerStr k' := fun h => hp (hp'.trans h.symm)
        rw [hset, hGet_cons, if_pos hp', if_neg heq, hGet_cons, if_pos hp']
      · rw [hset, hGet_cons, if_neg hp', ih]
        by_cases heq : lowerStr k = lowerStr k'
        · rw [if_pos heq, if_pos heq]
        · rw [if_neg heq, if_neg heq, hGet_cons, if_neg hp']

theorem hGet_hDelete (hs : List (String × String)) (k k' : String) :
    hGet (hDelete hs k) k' =
      if lowerStr k = lowerStr k' then none else hGet hs k' := by
  induction hs with
  | nil =>
    by_cases heq : lowerStr k = lowerStr k' <;> simp [hDelete, hGet, heq]
  | cons p t ih =>
    by_cases hp : lowerStr p.1 = lowerStr k
    · have hb : (lowerStr p.1 == lowerStr k) = true := by simpa using hp
      have hdel : hDelete (p :: t) k = hDelete t k := by
        simp [hDelete, List.filter_cons, hb]
      by_cases heq : lowerStr k = lowerStr k'
      · rw [hdel, ih, if_pos heq, if_pos heq]
      · have hp' : ¬ lowerStr p.1 = lowerStr k' := by rw [hp]; exact heq
        rw [hdel, ih, if_neg heq, if_neg heq, hGet_cons, if_neg hp']
    · have hb : (lowerStr p.1 == lowerStr k) = false := by simpa using hp
      have hdel : hDelete (p :: t) k = p :: hDelete t k := by
        simp [hDelete, List.filter_cons, hb]
      by_cases hp' : lowerStr p.1 = lowerStr k'
      · have heq : ¬ lowerStr k = lowerStr k' := fun h => hp (hp'.trans h.symm)
        rw [hdel, hGet_cons, if_pos hp', if_neg heq, hGet_cons, if_pos hp']
      · rw [hdel, hGet_cons, if_neg hp', ih]
        by_cases heq : lowerStr k = lowerStr k'
        · rw [if_pos heq, if_pos heq]
        · rw [if_neg heq, if_neg heq, hGet_cons, if_neg hp']

/-! ## Visitor classifier (lines 26-36, 44, 67-84, 219-238) -/

/-- Case-insensitive substring test on strings: the semantics of testing one
of the fixed user-agent regex literals (flag `i`; the only escaped
metacharacters `\/` and `\.` denote themselves). -/
def ciInfixStr (pat s : String) : Bool := infixB (lowerStr pat).data (lowerStr s).data

/-- Regex `CHATGPT_UA_RE = /ChatGPT-User\/1\.0/i` (line 27). -/
def chatgptUaRe (ua : String) : Bool := ciInfixStr "ChatGPT-User/1.0" ua

/-- Regex `GPTBOT_UA_RE = /GPTBot\/1\.0/i` (line 28). -/
def gptbotUaRe (ua : String) : Bool := ciInfixStr "GPTBot/1.0" ua

/-- Regex `GOOGLE_EXTENDED_RE = /Google-Extended/i` (line 29). -/
def googleExtendedRe (ua : String) : Bool := ciInfixStr "Google-Extended" ua

/-- Regex `BING_PREVIEW_RE = /bingpreview/i` (line 30). -/
def bingPreviewRe (ua : String) : Bool := ciInfixStr "bingpreview" ua

/-- Regex `PERPLEXITY_UA_RE = /PerplexityBot/i` (line 31). -/
def perplexityUaRe (ua : String) : Bool := ciInfixStr "PerplexityBot" ua

/-- Regex `CLAUDE_USER_RE = /Claude-User/i` (line 34). -/
def claudeUserRe (ua : String) : Bool := ciInfixStr "Claude-User" ua

/-- Regex `CLAUDE_WEB_RE = /Claude-Web/i` (line 35). -/
def claudeWebRe (ua : String) : Bool := ciInfixStr "Claude-Web" ua

/-- Regex `CLAUDE_BOT_RE = /ClaudeBot/i` (line 36). -/
def claudeBotRe (ua : String) : Bool := ciInfixStr "ClaudeBot" ua

/-- Transcription of `determineBotType` (lines 219-238). -/
def determineBotType (isChatGPT isGPTBot isGoogleExtended isBingPreview
    isPerplexity isClaudeUser isClaudeWeb isClaudeBot : Bool) : String :=
  if isChatGPT then "ChatGPT-User"
  else if isGPTBot then "GPTBot"
  else if isGoogleExtended then "Google-Extended"
  else if isBingPreview then "BingPreview"
  else if isPerplexity then "PerplexityBot"
  else if isClaudeUser then "Claude-User"
  else if isClaudeWeb then "Claude-Web"
  else if isClaudeBot then "ClaudeBot"
  else "Unknown"

/-- The classifier, composed from the source: line 44 lowercases the raw
`user-agent` query parameter, lines 67-84 compute the detection flags
(including the query override OR-ed into the ChatGPT flag), and lines
96-106 map a classified visitor to its bot type via `determineBotType`.
Unclassified visitors (`isAIVisitor` false) yield `none`. -/
def classify (ua : String) (uaQuery : Option String) : Option String :=
  let qsAgent := uaQuery.map lowerStr
  let isChatGPT := chatgptUaRe ua || qsAgent == some "chatgpt"
  let isGPTBot := gptbotUaRe ua
  let isGoogleExtended := googleExtendedRe ua
  let isBingPreview := bingPreviewRe ua
  let isPerplexity := perplexityUaRe ua
  let isClaudeUser := claudeUserRe ua
  let isClaudeWeb := claudeWebRe ua
  let isClaudeBot := claudeBotRe ua
  if isChatGPT || isGPTBot || isGoogleExtended || isBingPreview || isPerplexity
      || isClaudeUser || isClaudeWeb || isClaudeBot then
    some (determineBotType isChatGPT isGPTBot isGoogleExtended isBingPreview
      isPerplexity isClaudeUser isClaudeWeb isClaudeBot)
  else none

/-- Reference classifier following the specification's words: apply the fixed
ordered pattern list first; only when no pattern matches, accept the query
override, and only for the ChatGPT category. -/
def specClassify (ua : String) (uaQuery : Option String) : Option String :=
  if chatgptUaRe ua then some "ChatGPT-User"
  else if gptbotUaRe ua then some "GPTBot"
  else if googleExtendedRe ua then some "Google-Extended"
  else if bingPreviewRe ua then some "BingPreview"
  else if perplexityUaRe ua then some "PerplexityBot"
  else if claudeUserRe ua then some "Claude-User"
  else if claudeWebRe ua then some "Claude-Web"
  else if claudeBotRe ua then some "ClaudeBot"
  else if uaQuery.map lowerStr == some "chatgpt" then some "ChatGPT-User"
  else none

theorem classify_boolCases : ∀ a b c d e f g h : Bool,
    (if a || b || c || d || e || f || g || h then
      some (determineBotType a b c d e f g h) else none)
    = (if a then some "ChatGPT-User"
       else if b then some "GPTBot"
       else if c then some "Google-Extended"
       else if d then some "BingPreview"
       else if e then some "PerplexityBot"
       else if f then some "Claude-User"
       else if g then some "Claude-Web"
       else if h then some "ClaudeBot"
       else none) := by decide

/-- C2 (amended): the query override is accepted unconditionally, not only
when no pattern matches; because the ChatGPT flag is evaluated first, an
override value equal (case-insensitively) to `chatgpt` always classifies as
`ChatGPT-User`, even when the user-agent matches another pattern.  When the
override is absent or different, the classifier coincides with the
specification's ordered first-match reference. -/
theorem C2_classifier_vs_spec (ua : String) (uaQuery : Option String) :
    (uaQuery.map lowerStr = some "chatgpt" →
      classify ua uaQuery = some "ChatGPT-User")
    ∧ (uaQuery.map lowerStr ≠ some "chatgpt" →
      classify ua uaQuery = specClassify ua uaQuery) := by
  constructor
  · intro h
    simp [classify, determineBotType, h]
  · intro h
    have hq : (uaQuery.map lowerStr == some "chatgpt") = false := by
      simpa using h
    unfold classify specClassify
    simp only [hq, Bool.or_false]
    rw [classify_boolCases]
    simp only [hq, Bool.false_eq_true, if_false]

/-- C2 counterexample: `GPTBot/1.0` matches exactly one configured pattern,
but with the query override present the code classifies it as
`ChatGPT-User`, while the claim's reference classification is `GPTBot`. -/
theorem C2_counterexample :
    classify "GPTBot/1.0" (some "ChatGPT") = some "ChatGPT-User"
    ∧ specClassify "GPTBot/1.0" (some "ChatGPT") = some "GPTBot"
    ∧ (some "ChatGPT-User" : Option String) ≠ some "GPTBot" := by decide

theorem C2_witness :
    classify "Mozilla/5.0 (compatible; GPTBot/1.0)" none = some "GPTBot" := by
  have h := (C2_classifier_vs_spec "Mozilla/5.0 (compatible; GPTBot/1.0)" none).2 (by decide)
  rw [h]; decide

/-! ## fetchWithHost header derivation (lines 243-273) -/

/-- Header name `BYPASS_EDGE_FUNCTION_HEADER = "X-Internal-Fetch"` (line 39). -/
def bypassHeaderName : String := "X-Internal-Fetch"

/-- Header derivation of `fetchWithHost` (lines 254-263): copy the inbound
headers, set the loop-prevention marker — the source reads
`if (true || bypassEdgeFunction)`, making the marker unconditional — and
overwrite `host` with `origin.replace("https://", "")` when `fixHost` is
set. -/
def fetchWithHostHeaders (reqHeaders : List (String × String)) (origin : String)
    (fixHost bypassEdgeFunction : Bool) : List (String × String) :=
  let headers := reqHeaders
  let headers := if true || bypassEdgeFunction then
      hSet headers bypassHeaderName "true"
    else headers
  let headers := if fixHost then
      hSet headers "host" (String.mk (replaceFirst origin.data "https://".data []))
    else headers
  headers

/-- C3: every header map derived by `fetchWithHost` carries
`X-Internal-Fetch: true`, for every value of `bypassEdgeFunction`; moreover
the derived headers do not depend on `bypassEdgeFunction` at all. -/
theorem C3_marker_always_set (reqHeaders : List (String × String)) (origin : String)
    (fixHost bypassEdgeFunction : Bool) :
    hGet (fetchWithHostHeaders reqHeaders origin fixHost bypassEdgeFunction)
        bypassHeaderName = some "true"
    ∧ fetchWithHostHeaders reqHeaders origin fixHost true
      = fetchWithHostHeaders reqHeaders origin fixHost false := by
  unfold fetchWithHostHeaders
  refine ⟨?_, rfl⟩
  simp only [Bool.true_or, if_true]
  cases fixHost with
  | false =>
    rw [if_neg (by decide), hGet_hSet, if_pos rfl]
  | true =>
    rw [if_pos (by decide), hGet_hSet, if_neg (by decide), hGet_hSet, if_pos rfl]

/-! ## Response finalizer (lines 322-345) -/

/-- Response model: status, status text, headers and body text.  Bodies are
character lists because the injection path rewrites them textually. -/
structure Responsem where
  status : Nat
  statusText : String
  headers : List (String × String)
  body : List Char
deriving DecidableEq

/-- Transcription of `finalizeResponse` (lines 322-345).  Note the JS
truthiness test on `prev`: an existing but empty `Vary` value is treated
like an absent one. -/
def finalizeResponse (resp : Responsem) (varyUA aiVariant : Bool) : Responsem :=
  let newHeaders := hDelete resp.headers "content-length"
  let newHeaders := if varyUA then
      match hGet newHeaders "Vary" with
      | some prev =>
        if prev == "" then hSet newHeaders "Vary" "User-Agent"
        else hSet newHeaders "Vary" (prev ++ ", User-Agent")
      | none => hSet newHeaders "Vary" "User-Agent"
    else newHeaders
  let newHeaders := if aiVariant then
      hSet (hSet newHeaders "Cache-Control" "private, no-store, max-age=0")
        "Pragma" "no-cache"
    else newHeaders
  { resp with headers := newHeaders }

/-- C7 (amended): the finalizer removes `Content-Length` and leaves status,
status text and body unchanged; with `varyUA` set it overwrites `Vary` with
the previous value plus `, User-Agent` (or just `User-Agent` when absent or
empty).  The append is unconditional: a `Vary` that already lists
`User-Agent` is duplicated, not deduplicated. -/
theorem C7_finalize (resp : Responsem) (varyUA aiVariant : Bool) :
    hGet (finalizeResponse resp varyUA aiVariant).headers "Content-Length" = none
    ∧ (finalizeResponse resp varyUA aiVariant).status = resp.status
    ∧ (finalizeResponse resp varyUA aiVariant).statusText = resp.statusText
    ∧ (finalizeResponse resp varyUA aiVariant).body = resp.body
    ∧ (varyUA = true →
        hGet (finalizeResponse resp varyUA aiVariant).headers "Vary" =
          some (match hGet resp.headers "Vary" with
                | some prev =>
                  if prev == "" then "User-Agent" else prev ++ ", User-Agent"
                | none => "User-Agent")) := by
  have hVary1 : hGet (hDelete resp.headers "content-length") "Vary"
      = hGet resp.headers "Vary" := by
    rw [hGet_hDelete, if_neg (by decide)]
  have hCL1 : hGet (hDelete resp.headers "content-length") "Content-Length" = none := by
    rw [hGet_hDelete, if_pos (by decide)]
  refine ⟨?_, by cases varyUA <;> cases aiVariant <;> rfl,
    by cases varyUA <;> cases aiVariant <;> rfl,
    by cases varyUA <;> cases aiVariant <;> rfl, ?_⟩
  · cases varyUA with
    | false =>
      cases aiVariant with
      | false => simpa [finalizeResponse] using hCL1
      | true =>
        simp only [finalizeResponse, if_true, if_false]
        rw [hGet_hSet, if_neg (by decide), hGet_hSet, if_neg (by decide)]
        exact hCL1
    | true =>
      have h2 : ∀ w, hGet (hSet (hDelete resp.headers "content-length") "Vary" w)
          "Content-Length" = none := by
        intro w
        rw [hGet_hSet, if_neg (by decide)]
        exact hCL1
      cases aiVariant with
      | false =>
        simp only [finalizeResponse, if_true, if_false]
        rcases hv : hGet (hDelete resp.headers "content-length") "Vary" with _ | prev
        · exact h2 _
        · by_cases hp : prev == "" <;> simp only [hp, if_true, if_false] <;> exact h2 _
      | true =>
        simp only [finalizeResponse, if_true]
        rcases hv : hGet (hDelete resp.headers "content-length") "Vary" with _ | prev
        · rw [hGet_hSet, if_neg (by decide), hGet_hSet, if_neg (by decide)]
          exact h2 _
        · by_cases hp : prev == "" <;> simp only [hp, if_true, if_false] <;>
            (rw [hGet_hSet, if_neg (by decide), hGet_hSet, if_neg (by decide)]; exact h2 _)
  · intro hv
    subst hv
    have h3 : ∀ w, hGet (hSet (hDelete resp.headers "content-length") "Vary" w) "Vary"
        = some w := by
      intro w
      rw [hGet_hSet, if_pos (by decide)]
    have hmain : hGet (match hGet (hDelete resp.headers "content-length") "Vary" with
        | some prev =>
          if prev == "" then hSet (hDelete resp.headers "content-length") "Vary" "User-Agent"
          else hSet (hDelete resp.headers "content-length") "Vary" (prev ++ ", User-Agent")
        | none => hSet (hDelete resp.headers "content-length") "Vary" "User-Agent") "Vary"
        = some (match hGet resp.headers "Vary" with
                | some prev =>
                  if prev == "" then "User-Agent" else prev ++ ", User-Agent"
                | none => "User-Agent") := by
      rw [← hVary1]
      rcases hv2 : hGet (hDelete resp.headers "content-length") "Vary" with _ | prev
      · exact h3 _
      · by_cases hp : prev == "" <;> simp only [hp, if_true, if_false] <;> exact h3 _
    cases aiVariant with
    | false => simpa [finalizeResponse] using hmain
    | true =>
      simp only [finalizeResponse, if_true]
      rw [hGet_hSet, if_neg (by decide), hGet_hSet, if_neg (by decide)]
      exact hmain

/-- C7 counterexample: a response whose `Vary` already lists `User-Agent`
gains a duplicate entry, contradicting the claim's no-duplication clause. -/
theorem C7_counterexample :
    hGet (finalizeResponse ⟨200, "OK", [("Vary", "User-Agent")], []⟩ true true).headers
        "Vary" = some "User-Agent, User-Agent"
    ∧ ("User-Agent, User-Agent" : String) ≠ "User-Agent" := by decide

theorem C7_witness :
    hGet (finalizeResponse ⟨200, "OK", [("Content-Length", "10")], []⟩ true false).headers
        "Vary" = some "User-Agent" := by
  have h := (C7_finalize ⟨200, "OK", [("Content-Length", "10")], []⟩ true false).2.2.2.2 rfl
  rw [h]; decide

/-! ## Content injector (lines 303-317) -/

/-- Case-insensitive list prefix test (flag `i`). -/
def prefCI : List Char → List Char → Bool
  | [], _ => true
  | _ :: _, [] => false
  | c :: l, d :: s => ciChar c d && prefCI l s

/-- Index of the first case-insensitive occurrence of `pat` in the subject:
the match position of a non-global case-insensitive regex whose pattern is
a plain literal, as used by `test`/`replace` on `/<\/body>/i`. -/
def firstIdxCI (pat : List Char) : List Char → Option Nat
  | [] => if prefCI pat [] then some 0 else none
  | s@(_ :: r) => if prefCI pat s then some 0 else (firstIdxCI pat r).map (fun n => n + 1)

/-- JS replacement-template expansion (`GetSubstitution`) for a regex with
no capture groups: `$$` yields `$`; `$&` the matched text; `$` followed by
a backquote (code 96) the text before the match; `$` followed by a quote
(code 39) the text after the match; every other sequence is literal. -/
def expandDollar (matched before after : List Char) : List Char → List Char
  | [] => []
  | [c] => [c]
  | c :: d :: rest =>
    if c = '$' then
      if d = '$' then '$' :: expandDollar matched before after rest
      else if d = '&' then matched ++ expandDollar matched before after rest
      else if d = Char.ofNat 96 then before ++ expandDollar matched before after rest
      else if d = Char.ofNat 39 then after ++ expandDollar matched before after rest
      else c :: expandDollar matched before after (d :: rest)
    else c :: expandDollar matched before after (d :: rest)

/-- The literal matched by `bodyCloseRegex = /<\/body>/i` (line 310). -/
def bodyClose : List Char := "</body>".data

/-- Transcription of `injectHTML` (lines 308-317): `test` then `replace` on
the first case-insensitive `</body>` occurrence.  The replacement template
is the fragment followed by the literal lowercase `</body>`, processed
through JS replacement-template semantics (`expandDollar`); when the
pattern does not occur, the fragment is appended to the document. -/
def injectHTML (originalHTML injectedHTML : List Char) : List Char :=
  match firstIdxCI bodyClose originalHTML with
  | some i =>
    originalHTML.take i
      ++ expandDollar ((originalHTML.drop i).take bodyClose.length)
          (originalHTML.take i) (originalHTML.drop (i + bodyClose.length))
          (injectedHTML ++ bodyClose)
      ++ originalHTML.drop (i + bodyClose.length)
  | none => originalHTML ++ injectedHTML

theorem expandDollar_no_dollar (matched before after : List Char) :
    ∀ tmpl : List Char, tmpl.contains '$' = false →
      expandDollar matched before after tmpl = tmpl := by
  intro tmpl
  induction tmpl with
  | nil => intro _; rfl
  | cons c rest ih =>
    intro h
    have h' : ('$' == c) = false ∧ rest.contains '$' = false := by
      simpa only [List.contains_cons, Bool.or_eq_false_iff] using h
    have hc : ¬ c = '$' := by
      intro hcc
      subst hcc
      simpa using h'.1
    have hr : rest.contains '$' = false := h'.2
    cases rest with
    | nil => rfl
    | cons d rest₂ =>
      rw [show expandDollar matched before after (c :: d :: rest₂)
          = (if c = '$' then
              if d = '$' then '$' :: expandDollar matched before after rest₂
              else if d = '&' then matched ++ expandDollar matched before after rest₂
              else if d = Char.ofNat 96 then before ++ expandDollar matched before after rest₂
              else if d = Char.ofNat 39 then after ++ expandDollar matched before after rest₂
              else c :: expandDollar matched before after (d :: rest₂)
            else c :: expandDollar matched before after (d :: rest₂)) from rfl]
      rw [if_neg hc, ih hr]

theorem firstIdxCI_spec (pat : List Char) :
    ∀ s i, firstIdxCI pat s = some i →
      prefCI pat (s.drop i) = true ∧ ∀ j, j < i → prefCI pat (s.drop j) = false := by
  intro s
  induction s with
  | nil =>
    intro i h
    unfold firstIdxCI at h
    by_cases hp : prefCI pat [] = true
    · rw [if_pos hp] at h
      obtain rfl : (0 : Nat) = i := by simpa using h
      exact ⟨hp, by omega⟩
    · rw [if_neg hp] at h
      simp at h
  | cons c r ih =>
    intro i h
    unfold firstIdxCI at h
    by_cases hp : prefCI pat (c :: r) = true
    · rw [if_pos hp] at h
      obtain rfl : (0 : Nat) = i := by simpa using h
      exact ⟨hp, by omega⟩
    · rw [if_neg hp] at h
      rcases hr : firstIdxCI pat r with _ | n
      · rw [hr] at h; simp at h
      · rw [hr] at h
        obtain rfl : n + 1 = i := by simpa using h
        obtain ⟨h1, h2⟩ := ih n hr
        refine ⟨by simpa using h1, ?_⟩
        intro j hj
        cases j with
        | zero => simpa using Bool.of_not_eq_true hp
        | succ j' => simpa using h2 j' (by omega)

/-- C4 (amended): when the document contains no case-insensitive `</body>`,
injection appends the fragment byte-for-byte; when it does, and the
fragment contains no `$` character, the output is the document up to the
first case-insensitive occurrence, then the fragment, then the literal
lowercase `</body>` (normalizing the original tag's casing), then the rest
of the document.  The match index really is the first case-insensitive
occurrence. -/
theorem C4_inject (base frag : List Char) :
    (firstIdxCI bodyClose base = none → injectHTML base frag = base ++ frag)
    ∧ (∀ i, firstIdxCI bodyClose base = some i → frag.contains '$' = false →
        injectHTML base frag
          = base.take i ++ frag ++ bodyClose ++ base.drop (i + bodyClose.length))
    ∧ (∀ i, firstIdxCI bodyClose base = some i →
        prefCI bodyClose (base.drop i) = true
        ∧ ∀ j, j < i → prefCI bodyClose (base.drop j) = false) := by
  refine ⟨?_, ?_, ?_⟩
  · intro h
    simp only [injectHTML, h]
  · intro i h hfrag
    simp only [injectHTML, h]
    have hnd : (frag ++ bodyClose).contains '$' = false := by
      have hbc : bodyClose.contains '$' = false := by decide
      rw [List.contains_eq_any_beq] at hfrag hbc ⊢
      rw [List.any_append, hfrag, hbc]
      rfl
    rw [expandDollar_no_dollar _ _ _ _ hnd]
    simp [List.append_assoc]
  · intro i h
    exact firstIdxCI_spec bodyClose base i h

/-- C4 counterexample: the claim's verbatim-insertion output is wrong in two
ways.  First, the matched closing tag is rewritten in lowercase: injecting
`F` into `A</BODY>B` yields `AF</body>B`, not `AF</BODY>B` as the claim
requires.  Second, a fragment containing `$&` is not inserted verbatim:
injecting `$&x` into `<a></body>` yields `<a></body>x</body>` (JS
replacement-template expansion), not `<a>$&x</body>`. -/
theorem C4_counterexample :
    injectHTML "A</BODY>B".data "F".data = "AF</body>B".data
    ∧ injectHTML "A</BODY>B".data "F".data ≠ "AF</BODY>B".data
    ∧ injectHTML "<a></body>".data "$&x".data = "<a></body>x</body>".data
    ∧ injectHTML "<a></body>".data "$&x".data ≠ "<a>$&x</body>".data := by decide

theorem C4_witness :
    injectHTML "<html><body><p>X</p></body></html>".data "<div>F</div>".data
      = "<html><body><p>X</p><div>F</div></body></html>".data := by
  have h := (C4_inject "<html><body><p>X</p></body></html>".data "<div>F</div>".data).2.1
      20 (by decide) (by decide)
  rw [h]; decide

/-! ## Fragment extractor (lines 283-301)

The regex
`<([a-zA-Z0-9:-]+)([^*>]*\s)?id=(["'])ESC\3[^>]*>([\s\S]*?)<\/\1\s*>`
(flag `i`, `ESC` the escaped target id) is embedded as a specialized
backtracking matcher in continuation-passing style.  Greedy pieces try the
longest consumption first, the lazy piece the shortest; backreferences
compare case-insensitively under flag `i`.  Since `escapeRegExp` prefixes
every metacharacter with a backslash, the embedded id is a plain literal,
which the matcher receives as the character list `tid`. -/

/-- Character class `[a-zA-Z0-9:-]` (group 1 of the extractor regex). -/
def isTagChar (c : Char) : Bool :=
  c.isAlpha || c.isDigit || c == ':' || c == '-'

/-- JS regex class `\s` (whitespace, including the Unicode space
separators and the BOM). -/
def isJsWs (c : Char) : Bool :=
  c == ' ' || c == Char.ofNat 9 || c == Char.ofNat 10 || c == Char.ofNat 11
    || c == Char.ofNat 12 || c == Char.ofNat 13 || c == Char.ofNat 160
    || c == Char.ofNat 5760 || (8192 ≤ c.toNat && c.toNat ≤ 8202)
    || c == Char.ofNat 8232 || c == Char.ofNat 8233 || c == Char.ofNat 8239
    || c == Char.ofNat 8287 || c == Char.ofNat 12288 || c == Char.ofNat 65279

/-- Character class `["']` (group 3 of the extractor regex). -/
def isQuote (c : Char) : Bool := c == Char.ofNat 34 || c == Char.ofNat 39

/-- Character class `[^*>]`. -/
def notStarGt (c : Char) : Bool := !(c == '*' || c == '>')

/-- Character class `[^>]`. -/
def notGt (c : Char) : Bool := !(c == '>')

/-- Case-insensitive literal piece in continuation style: consume `lit` (up
to ASCII case) from the subject, then run the continuation. -/
def ciLitK (lit : List Char) (s : List Char)
    (k : List Char → Option (List Char)) : Option (List Char) :=
  match lit, s with
  | [], _ => k s
  | _ :: _, [] => none
  | c :: l, d :: s₂ => if ciChar c d then ciLitK l s₂ k else none

/-- Greedy star over a character class: consume as many class characters as
possible, backtracking into the continuation from the longest consumption
downwards. -/
def starGreedy (p : Char → Bool) (s : List Char)
    (k : List Char → Option (List Char)) : Option (List Char) :=
  match s with
  | [] => k []
  | c :: rest =>
    if p c then (starGreedy p rest k) <|> k (c :: rest)
    else k (c :: rest)

/-- Lazy star `[\s\S]*?`: try the continuation at the shortest consumption
first, growing the consumed region one character at a time. -/
def starLazy (s : List Char) (k : List Char → Option (List Char)) :
    Option (List Char) :=
  k s <|> match s with
          | [] => none
          | _ :: rest => starLazy rest k

/-- Greedy star with capture: like `starGreedy`, but passing the consumed
run (prefixed by `acc`) to the continuation. -/
def starCap (p : Char → Bool) (acc s : List Char)
    (k : List Char → List Char → Option (List Char)) : Option (List Char) :=
  match s with
  | [] => k acc []
  | c :: rest =>
    if p c then (starCap p (acc ++ [c]) rest k) <|> k acc (c :: rest)
    else k acc (c :: rest)

/-- Greedy plus with capture, for group 1 `([a-zA-Z0-9:-]+)`. -/
def plusCap (p : Char → Bool) (s : List Char)
    (k : List Char → List Char → Option (List Char)) : Option (List Char) :=
  match s with
  | [] => none
  | c :: rest => if p c then starCap p [c] rest k else none

/-- Continuation after `\s*` in the closing tag: expect `>` and succeed. -/
def wsGtCont : List Char → Option (List Char)
  | '>' :: s₅ => some s₅
  | _ => none

/-- Pattern tail `<\/\1\s*>`: the literal `</`, the backreference to the
captured tag name (case-insensitive under flag `i`), optional whitespace
and `>`. -/
def matchClose (tag : List Char) (s : List Char) : Option (List Char) :=
  match s with
  | '<' :: '/' :: s₂ => ciLitK tag s₂ (fun s₃ => starGreedy isJsWs s₃ wsGtCont)
  | _ => none

/-- Pattern piece `([\s\S]*?)<\/\1\s*>`: grow the content group lazily until
the closing tag matches. -/
def matchTail (tag : List Char) (s : List Char) : Option (List Char) :=
  starLazy s (matchClose tag)

/-- Continuation after `[^>]*`: expect `>`, then the lazy content and the
closing tag. -/
def gtCont (tag : List Char) : List Char → Option (List Char)
  | '>' :: s₅ => matchTail tag s₅
  | _ => none

/-- Pattern piece after the opening quote: the escaped id (a
case-insensitive literal), the backreference `\3` to the quote, `[^>]*`,
`>`, then the tail. -/
def matchAfterQuote (tag tid : List Char) (q : Char) (s : List Char) :
    Option (List Char) :=
  ciLitK tid s (fun s₂ =>
    match s₂ with
    | c :: s₃ => if ciChar q c then starGreedy notGt s₃ (gtCont tag) else none
    | [] => none)

/-- Pattern piece `id=(["'])…`: the literal `id=`, the quote (group 3), then
the id and the rest. -/
def matchIdAttr (tag tid : List Char) (s : List Char) : Option (List Char) :=
  ciLitK "id=".data s (fun s₂ =>
    match s₂ with
    | c :: s₃ => if isQuote c then matchAfterQuote tag tid c s₃ else none
    | [] => none)

/-- Continuation after the attribute group's `[^*>]*`: expect one `\s`, then
the id attribute. -/
def g2Cont (tag tid : List Char) : List Char → Option (List Char)
  | c :: s₃ => if isJsWs c then matchIdAttr tag tid s₃ else none
  | [] => none

/-- Pattern piece `([^*>]*\s)?id=…`: the optional greedy attribute group 2
(tried present-first, as a greedy optional group), then the id attribute. -/
def matchG2 (tag tid : List Char) (s : List Char) : Option (List Char) :=
  (starGreedy notStarGt s (g2Cont tag tid)) <|> matchIdAttr tag tid s

/-- The full extractor regex matched at the start of `s`: `<`, group 1, the
optional attribute group, the id attribute, the lazy content and the
closing tag.  Returns the remaining subject after the match. -/
def matchAt (tid : List Char) (s : List Char) : Option (List Char) :=
  match s with
  | '<' :: s₁ => plusCap isTagChar s₁ (fun tag s₂ => matchG2 tag tid s₂)
  | _ => none

/-- One scan step: on a match at the current position the result is the
consumed part of the subject (`m[0]`), else the result of scanning from
the next position. -/
def scanStep (s : List Char) (o : Option (List Char)) (next : List Char) : List Char :=
  match o with
  | some rest => s.take (s.length - rest.length)
  | none => next

/-- Leftmost-match scan of `html.match(re)` with a non-global regex: try
`matchAt` at each successive start position; on success the matched text
`m[0]` is the consumed part of the subject. -/
def extractScan (tid : List Char) : List Char → List Char
  | [] => scanStep [] (matchAt tid []) []
  | s@(_ :: r) => scanStep s (matchAt tid s) (extractScan tid r)

/-- Transcription of `escapeRegExp` (lines 299-301): prefix every regex
metacharacter with a backslash (`\x7b` and `\x7d` are the brace
characters), so the id becomes a literal in the assembled pattern. -/
def escapeRegExp (s : List Char) : List Char :=
  s.flatMap (fun c =>
    if c == '.' || c == '*' || c == '+' || c == '?' || c == '^'
        || c == '$' || c == Char.ofNat 123 || c == Char.ofNat 125 || c == '('
        || c == ')' || c == '|' || c == '[' || c == ']' || c == '\\'
    then ['\\', c] else [c])

/-- Transcription of `extractElementOuterHTMLById` (lines 287-294): match
the assembled regex against the document and return `m[0]`, or the empty
string on no match.  The escaped id occurs in the pattern as a
case-insensitive literal, which is how `matchAt` treats `tid`. -/
def extractElementOuterHTMLById (html tid : List Char) : List Char :=
  extractScan tid html

/-! ## Request handler (lines 41-212) -/

/-- URL model: the parts of a WHATWG `URL` value the handler reads. -/
structure URLm where
  origin : String
  pathname : String
  search : String
deriving DecidableEq

/-- Inbound request model: URL, method, headers and the raw `user-agent`
query parameter. -/
structure Reqm where
  url : URLm
  method : String
  headers : List (String × String)
  uaQuery : Option String
deriving DecidableEq

/-- Outcome of one platform `fetch`: a response, or a thrown network
error. -/
inductive FetchOutcome where
  | ok (r : Responsem)
  | err
deriving DecidableEq

/-- Outcome of the detached telemetry POST (lines 126-133): it may succeed,
fail, or still be pending when the response is returned. -/
inductive TelemetryOutcome where
  | success
  | failure
  | pending
deriving DecidableEq

/-- Environment of one handler run: the configuration, the oracle outcomes
of the up to three `fetchWithHost` calls (secondary store, primary origin,
redirect re-fetch), the platform URL resolver `new URL(loc, base)`, and
the telemetry outcome. -/
structure Env where
  organizationId : String
  altFetch : FetchOutcome
  origFetch : FetchOutcome
  redirectFetch : FetchOutcome
  resolveURL : String → String → URLm
  telemetry : TelemetryOutcome

/-- Arguments of one `fetchWithHost` call, as recorded in the call trace:
the fields mirror the source's parameter list `(origin, originalURL,
request, fixHost, logURL, bypassEdgeFunction)` with the request left
implicit. -/
structure FetchCall where
  origin : String
  url : URLm
  fixHost : Bool
  logURL : Bool
  bypassEdgeFunction : Bool
deriving DecidableEq

/-- Client-visible result: the verbatim pass-through `fetch(request)` of the
unmodified inbound request, or a finalized injected response. -/
inductive HandlerResponse where
  | passThrough
  | finalized (r : Responsem)
deriving DecidableEq

/-- Observable behaviour of one handler run: the response, whether the
telemetry POST was issued, and the `fetchWithHost` calls in order. -/
structure HandlerOutput where
  response : HandlerResponse
  telemetryEmitted : Bool
  calls : List FetchCall
deriving DecidableEq

/-- `ALT_ORIGIN` (lines 20-22). -/
def altOrigin (organizationId : String) : String :=
  if organizationId == "" then ""
  else "https://salespeak-public-serving.s3.amazonaws.com/" ++ organizationId

/-- Transcription of `isHTMLResponse` (lines 278-281): a case-sensitive
substring test of `text/html` against the `content-type` header value
(empty when the header is absent). -/
def isHTMLResponse (resp : Responsem) : Bool :=
  infixB "text/html".data ((hGet resp.headers "content-type").getD "").data

/-- JS `Response.ok`: status in the 2xx range. -/
def respOk (r : Responsem) : Bool := decide (200 ≤ r.status ∧ r.status < 300)

/-- JS `String.prototype.trim` on ASCII subjects (defined over the
character list so that it evaluates by `decide`). -/
def trimStr (s : String) : String :=
  String.mk ((s.data.dropWhile Char.isWhitespace).reverse.dropWhile
    Char.isWhitespace).reverse

/-- JS `String.prototype.endsWith` (defined over the character list). -/
def endsWithStr (s suf : String) : Bool := prefB suf.data.reverse s.data.reverse

/-- The id looked up in the secondary-store document (line 151). -/
def optimizedId : List Char := "optimized-for-ai".data

/-- Redirect handling of lines 170-185: on a 3xx first response carrying a
non-empty `location` header, resolve it against the current origin and
re-fetch exactly once with `fixHost` set; the bypass argument records
whether the resolved origin equals the request origin.  Returns the
response the decision is based on (the second one when a hop was followed,
else the first), `Except.error` when the re-fetch throws, and the trace of
the extra call. -/
def redirectStep (env : Env) (req : Reqm) (origResp : Responsem) :
    Except Unit Responsem × List FetchCall :=
  if 300 ≤ origResp.status ∧ origResp.status < 400 then
    match hGet origResp.headers "location" with
    | some loc =>
      if loc == "" then (Except.ok origResp, [])
      else
        let canonURL := env.resolveURL loc req.url.origin
        let redirCall : FetchCall :=
          ⟨canonURL.origin, canonURL, true, false, canonURL.origin == req.url.origin⟩
        match env.redirectFetch with
        | FetchOutcome.err => (Except.error (), [redirCall])
        | FetchOutcome.ok r₂ => (Except.ok r₂, [redirCall])
    | none => (Except.ok origResp, [])
  else (Except.ok origResp, [])

/-- The AI path (lines 143-211, the body of the `try`): fetch the secondary
store, extract the fragment when the response is `ok`, fetch the primary
origin host-header-fixed, follow at most one redirect hop, then inject and
finalize when a fragment exists and the origin response is HTML, else fall
back to the pass-through.  `Except.error` stands for a raised error,
caught by the handler. -/
def agentPath (env : Env) (req : Reqm) :
    Except Unit HandlerResponse × List FetchCall :=
  let altCall : FetchCall := ⟨altOrigin env.organizationId, req.url, false, true, false⟩
  match env.altFetch with
  | FetchOutcome.err => (Except.error (), [altCall])
  | FetchOutcome.ok altResp =>
    let injectedHTML :=
      if respOk altResp then extractElementOuterHTMLById altResp.body optimizedId
      else []
    let origCall : FetchCall := ⟨req.url.origin, req.url, true, false, true⟩
    match env.origFetch with
    | FetchOutcome.err => (Except.error (), [altCall, origCall])
    | FetchOutcome.ok origResp =>
      match redirectStep env req origResp with
      | (Except.error _, rc) => (Except.error (), [altCall, origCall] ++ rc)
      | (Except.ok finalResp, rc) =>
        if !injectedHTML.isEmpty && isHTMLResponse finalResp then
          (Except.ok (HandlerResponse.finalized (finalizeResponse
            ⟨finalResp.status, finalResp.statusText, finalResp.headers,
              injectHTML finalResp.body injectedHTML⟩ true true)),
           [altCall, origCall] ++ rc)
        else (Except.ok HandlerResponse.passThrough, [altCall, origCall] ++ rc)

/-- Transcription of the exported handler (lines 41-212): loop-prevention
marker check, configuration check, static-extension pass-through,
classification (telemetry fires exactly for classified visitors), then the
AI path with its catch-all fallback to the verbatim pass-through. -/
def handle (env : Env) (req : Reqm) : HandlerOutput :=
  if hGet req.headers bypassHeaderName == some "true" then
    ⟨HandlerResponse.passThrough, false, []⟩
  else if env.organizationId == "" || trimStr env.organizationId == "" then
    ⟨HandlerResponse.passThrough, false, []⟩
  else if endsWithStr req.url.pathname ".txt" || endsWithStr req.url.pathname ".xml" then
    ⟨HandlerResponse.passThrough, false, []⟩
  else if (classify ((hGet req.headers "user-agent").getD "") req.uaQuery).isSome then
    match agentPath env req with
    | (Except.ok resp, calls) => ⟨resp, true, calls⟩
    | (Except.error _, calls) => ⟨HandlerResponse.passThrough, true, calls⟩
  else ⟨HandlerResponse.passThrough, false, []⟩

theorem handle_agent (env : Env) (req : Reqm)
    (hbp : (hGet req.headers bypassHeaderName == some "true") = false)
    (horg : (env.organizationId == "" || trimStr env.organizationId == "") = false)
    (hext : (endsWithStr req.url.pathname ".txt"
      || endsWithStr req.url.pathname ".xml") = false)
    (hai : (classify ((hGet req.headers "user-agent").getD "") req.uaQuery).isSome = true) :
    handle env req =
      match agentPath env req with
      | (Except.ok resp, calls) => ⟨resp, true, calls⟩
      | (Except.error _, calls) => ⟨HandlerResponse.passThrough, true, calls⟩ := by
  unfold handle
  rw [hbp, horg, hext, hai]
  simp

theorem handle_nonAgent (env : Env) (req : Reqm)
    (h : (classify ((hGet req.headers "user-agent").getD "") req.uaQuery).isSome = false) :
    (handle env req).response = HandlerResponse.passThrough := by
  unfold handle
  rw [h]
  by_cases h1 : (hGet req.headers bypassHeaderName == some "true") = true
  · rw [if_pos h1]
  · rw [if_neg h1]
    by_cases h2 : (env.organizationId == "" || trimStr env.organizationId == "") = true
    · rw [if_pos h2]
    · rw [if_neg h2]
      by_cases h3 : (endsWithStr req.url.pathname ".txt"
          || endsWithStr req.url.pathname ".xml") = true
      · rw [if_pos h3]
      · rw [if_neg h3]
        simp

/-- C1: an inbound request carrying the loop-prevention marker
`X-Internal-Fetch: true` is answered with the verbatim pass-through
immediately: no telemetry is emitted and no `fetchWithHost` call is made,
regardless of every other header, the user-agent and any query override. -/
theorem C1_loop_marker (env : Env) (req : Reqm)
    (h : hGet req.headers bypassHeaderName = some "true") :
    handle env req = ⟨HandlerResponse.passThrough, false, []⟩ := by
  unfold handle
  rw [h]
  rfl

/-- C9: the client-visible output is a function of everything except the
telemetry outcome: two runs that differ only in whether the detached
telemetry POST succeeds, fails, or is still pending produce identical
outputs — the handler never awaits the POST, and its `.catch` only logs. -/
theorem C9_telemetry_independent (env : Env) (t₁ t₂ : TelemetryOutcome) (req : Reqm) :
    handle { env with telemetry := t₁ } req = handle { env with telemetry := t₂ } req := rfl

theorem redirectStep_hop (env : Env) (req : Reqm) (origResp r₂ : Responsem) (loc : String)
    (hst : 300 ≤ origResp.status ∧ origResp.status < 400)
    (hloc : hGet origResp.headers "location" = some loc)
    (hne : (loc == "") = false)
    (hredir : env.redirectFetch = FetchOutcome.ok r₂) :
    redirectStep env req origResp =
      (Except.ok r₂,
       [⟨(env.resolveURL loc req.url.origin).origin, env.resolveURL loc req.url.origin,
         true, false, (env.resolveURL loc req.url.origin).origin == req.url.origin⟩]) := by
  unfold redirectStep
  rw [if_pos hst, hloc]
  simp only [hne, Bool.false_eq_true, if_false, hredir]

theorem redirectStep_none (env : Env) (req : Reqm) (origResp : Responsem)
    (hnr : ¬(300 ≤ origResp.status ∧ origResp.status < 400)) :
    redirectStep env req origResp = (Except.ok origResp, []) := by
  unfold redirectStep
  rw [if_neg hnr]

/-- C5 (amended): when the primary-origin fetch returns a 3xx response
with a non-empty `Location` header — the source's `if (loc)` treats a
present-but-empty value like an absent one — the handler re-issues
exactly one further fetch, against the location resolved relative to the
primary origin, with `fixHost` set (the trace is exactly the three calls:
secondary store, primary origin, redirect re-fetch); the
inject-or-fallback decision is computed from the second response,
whatever its status — a 3xx second response is used as-is. -/
theorem C5_redirect (env : Env) (req : Reqm) (altResp origResp r₂ : Responsem) (loc : String)
    (hbp : (hGet req.headers bypassHeaderName == some "true") = false)
    (horg : (env.organizationId == "" || trimStr env.organizationId == "") = false)
    (hext : (endsWithStr req.url.pathname ".txt"
      || endsWithStr req.url.pathname ".xml") = false)
    (hai : (classify ((hGet req.headers "user-agent").getD "") req.uaQuery).isSome = true)
    (halt : env.altFetch = FetchOutcome.ok altResp)
    (horig : env.origFetch = FetchOutcome.ok origResp)
    (hst : 300 ≤ origResp.status ∧ origResp.status < 400)
    (hloc : hGet origResp.headers "location" = some loc)
    (hne : (loc == "") = false)
    (hredir : env.redirectFetch = FetchOutcome.ok r₂) :
    (handle env req).calls =
      [⟨altOrigin env.organizationId, req.url, false, true, false⟩,
       ⟨req.url.origin, req.url, true, false, true⟩,
       ⟨(env.resolveURL loc req.url.origin).origin, env.resolveURL loc req.url.origin,
        true, false, (env.resolveURL loc req.url.origin).origin == req.url.origin⟩]
    ∧ (handle env req).response =
        (if !(if respOk altResp then
                extractElementOuterHTMLById altResp.body optimizedId
              else []).isEmpty && isHTMLResponse r₂ then
          HandlerResponse.finalized (finalizeResponse
            ⟨r₂.status, r₂.statusText, r₂.headers,
              injectHTML r₂.body (if respOk altResp then
                extractElementOuterHTMLById altResp.body optimizedId else [])⟩ true true)
        else HandlerResponse.passThrough) := by
  have hred := redirectStep_hop env req origResp r₂ loc hst hloc hne hredir
  rw [handle_agent env req hbp horg hext hai]
  by_cases hdec : (!(if respOk altResp then
      extractElementOuterHTMLById altResp.body optimizedId
    else []).isEmpty && isHTMLResponse r₂) = true
  · simp only [agentPath, halt, horig, hred, hdec, if_true]
    exact ⟨rfl, trivial⟩
  · simp only [agentPath, halt, horig, hred, hdec, Bool.false_eq_true, if_false]
    exact ⟨rfl, trivial⟩

/-- C8: an error raised in the AI path — whichever fetch stage it reaches —
is caught and the handler answers with the verbatim pass-through of the
unmodified request, identical to the response of an equivalent
non-classified request; no error escapes the handler. -/
theorem C8_error_fallback (env : Env) (req req₂ : Reqm)
    (hbp : (hGet req.headers bypassHeaderName == some "true") = false)
    (horg : (env.organizationId == "" || trimStr env.organizationId == "") = false)
    (hext : (endsWithStr req.url.pathname ".txt"
      || endsWithStr req.url.pathname ".xml") = false)
    (hai : (classify ((hGet req.headers "user-agent").getD "") req.uaQuery).isSome = true)
    (herr : (agentPath env req).1 = Except.error ())
    (hai₂ : (classify ((hGet req₂.headers "user-agent").getD "") req₂.uaQuery).isSome = false) :
    (handle env req).response = HandlerResponse.passThrough
    ∧ (handle env req₂).response = (handle env req).response := by
  have h1 : (handle env req).response = HandlerResponse.passThrough := by
    rw [handle_agent env req hbp horg hext hai]
    rcases hp : agentPath env req with ⟨res, calls⟩
    rw [hp] at herr
    simp only at herr
    subst herr
    rfl
  exact ⟨h1, by rw [h1, handle_nonAgent env req₂ hai₂]⟩

/-- C10: the injection decision tests whether the post-redirect origin
response's `Content-Type` contains the exact lowercase substring
`text/html` (`isHTMLResponse` is a case-sensitive substring test, not a
media-type parse); when it does not — for instance for `Text/HTML` or an
absent header — a classified request falls back to the verbatim
pass-through even though a non-empty fragment was extracted. -/
theorem C10_html_gate (env : Env) (req : Reqm) (altResp origResp : Responsem)
    (hbp : (hGet req.headers bypassHeaderName == some "true") = false)
    (horg : (env.organizationId == "" || trimStr env.organizationId == "") = false)
    (hext : (endsWithStr req.url.pathname ".txt"
      || endsWithStr req.url.pathname ".xml") = false)
    (hai : (classify ((hGet req.headers "user-agent").getD "") req.uaQuery).isSome = true)
    (halt : env.altFetch = FetchOutcome.ok altResp)
    (horig : env.origFetch = FetchOutcome.ok origResp)
    (hnr : ¬(300 ≤ origResp.status ∧ origResp.status < 400))
    (_hfrag : (if respOk altResp then
        extractElementOuterHTMLById altResp.body optimizedId
      else []).isEmpty = false)
    (hhtml : isHTMLResponse origResp = false) :
    (handle env req).response = HandlerResponse.passThrough := by
  have hred := redirectStep_none env req origResp hnr
  rw [handle_agent env req hbp horg hext hai]
  simp only [agentPath, halt, horig, hred, hhtml, Bool.and_false, Bool.false_eq_true, if_false]

/-! ## Concrete witness data -/

def sampleURL : URLm := ⟨"https://example.com", "/page", ""⟩

def sampleResolve : String → String → URLm := fun loc base => ⟨base, loc, ""⟩

theorem C1_witness :
    handle ⟨"org1", FetchOutcome.err, FetchOutcome.err, FetchOutcome.err,
        sampleResolve, TelemetryOutcome.pending⟩
      ⟨sampleURL, "GET", [("User-Agent", "GPTBot/1.0"), ("X-Internal-Fetch", "true")], none⟩
      = ⟨HandlerResponse.passThrough, false, []⟩ :=
  C1_loop_marker _ _ (by decide)

def env5 : Env := ⟨"org1", FetchOutcome.ok ⟨404, "NF", [], []⟩,
  FetchOutcome.ok ⟨302, "Found", [("Location", "/new-path")], []⟩,
  FetchOutcome.ok ⟨200, "OK", [("Content-Type", "text/plain")], []⟩,
  sampleResolve, TelemetryOutcome.pending⟩

def req5 : Reqm := ⟨sampleURL, "GET", [("User-Agent", "GPTBot/1.0")], none⟩

theorem C5_witness :
    (handle env5 req5).calls =
      [⟨altOrigin "org1", sampleURL, false, true, false⟩,
       ⟨"https://example.com", sampleURL, true, false, true⟩,
       ⟨"https://example.com", ⟨"https://example.com", "/new-path", ""⟩, true, false, true⟩]
    ∧ (handle env5 req5).response = HandlerResponse.passThrough := by
  have h := C5_redirect env5 req5 ⟨404, "NF", [], []⟩
      ⟨302, "Found", [("Location", "/new-path")], []⟩
      ⟨200, "OK", [("Content-Type", "text/plain")], []⟩ "/new-path"
      (by decide) (by decide) (by decide) (by decide) rfl rfl
      (by constructor <;> decide) (by decide) (by decide) rfl
  refine ⟨?_, ?_⟩
  · rw [h.1]; decide
  · rw [h.2]; decide

def env8 : Env := ⟨"org1", FetchOutcome.err, FetchOutcome.err, FetchOutcome.err,
  sampleResolve, TelemetryOutcome.failure⟩

def req8 : Reqm := ⟨sampleURL, "GET", [("User-Agent", "GPTBot/1.0")], none⟩

def req8b : Reqm := ⟨sampleURL, "GET", [("User-Agent", "Mozilla/5.0")], none⟩

theorem C8_witness :
    (handle env8 req8).response = HandlerResponse.passThrough
    ∧ (handle env8 req8b).response = (handle env8 req8).response :=
  C8_error_fallback env8 req8 req8b (by decide) (by decide) (by decide) (by decide)
    rfl (by decide)

def env10 : Env := ⟨"org1",
  FetchOutcome.ok ⟨200, "OK", [], "<div id=\x22optimized-for-ai\x22>X</div>".data⟩,
  FetchOutcome.ok ⟨200, "OK", [("Content-Type", "Text/HTML")], "<body></body>".data⟩,
  FetchOutcome.err, sampleResolve, TelemetryOutcome.success⟩

def req10 : Reqm := ⟨sampleURL, "GET", [("User-Agent", "ChatGPT-User/1.0")], none⟩

theorem C10_witness :
    (handle env10 req10).response = HandlerResponse.passThrough :=
  C10_html_gate env10 req10
    ⟨200, "OK", [], "<div id=\x22optimized-for-ai\x22>X</div>".data⟩
    ⟨200, "OK", [("Content-Type", "Text/HTML")], "<body></body>".data⟩
    (by decide) (by decide) (by decide) (by decide) rfl rfl
    (by intro h; exact absurd h.1 (by decide)) (by decide) (by decide)

/-! ## Extractor verification -/

/-- Double-quote character (code 34). -/
def qc : Char := Char.ofNat 34

/-- Element shape used to state the extractor theorem: an opening tag whose
only attribute is a double-quoted id, then content, then the matching
closing tag. -/
def mkIdElem (tag tid content : List Char) : List Char :=
  '<' :: (tag ++ (' ' :: 'i' :: 'd' :: '=' :: qc ::
    (tid ++ (qc :: '>' :: (content ++ ('<' :: '/' :: (tag ++ ['>'])))))))

/-- Case-insensitive substring test. -/
def ciInfixB (pat : List Char) : List Char → Bool
  | [] => prefCI pat []
  | s@(_ :: r) => prefCI pat s || ciInfixB pat r

theorem ciChar_refl (c : Char) : ciChar c c = true := by simp [ciChar]

theorem prefCI_self_append (l : List Char) : ∀ s, prefCI l (l ++ s) = true := by
  induction l with
  | nil => intro s; rfl
  | cons c l' ih =>
    intro s
    simp [prefCI, ciChar_refl, ih]

theorem ciLitK_eq (l : List Char) :
    ∀ (s : List Char) (k : List Char → Option (List Char)),
      ciLitK l s k = if prefCI l s then k (s.drop l.length) else none := by
  induction l with
  | nil => intro s k; simp [ciLitK, prefCI]
  | cons c l' ih =>
    intro s k
    cases s with
    | nil => simp [ciLitK, prefCI]
    | cons d s₂ =>
      by_cases hc : ciChar c d = true
      · simp [ciLitK, prefCI, hc, ih]
      · have hc' : ciChar c d = false := by
          cases hx : ciChar c d
          · rfl
          · exact absurd hx hc
        simp [ciLitK, prefCI, hc']

theorem char_toLower_eq_lt {c : Char} (h : c.toLower = '<') : c = '<' := by
  simp only [Char.toLower] at h
  split at h
  · exfalso
    rename_i hr
    have hv : (c.toNat + 32).isValidChar := Or.inl (by omega)
    rw [Char.ofNat, dif_pos hv] at h
    have h2 := congrArg Char.toNat h
    have h3 : (Char.ofNatAux (c.toNat + 32) hv).toNat = c.toNat + 32 := rfl
    rw [h3] at h2
    have h4 : Char.toNat '<' = 60 := rfl
    omega
  · exact h

theorem ciChar_lt_of_tagChar {c : Char} (h : isTagChar c = true) :
    ciChar c '<' = false := by
  cases hx : ciChar c '<'
  · rfl
  · exfalso
    have h1 : c.toLower = Char.toLower '<' := by simpa [ciChar] using hx
    have h2 : Char.toLower '<' = '<' := by decide
    rw [h2] at h1
    have h3 := char_toLower_eq_lt h1
    subst h3
    exact absurd h (by decide)

theorem prefCI_append (L : List Char) :
    ∀ (A B : List Char), prefCI L (A ++ B) = true →
      (L.length ≤ A.length ∧ prefCI L A = true)
      ∨ (A.length < L.length ∧ prefCI (L.drop A.length) B = true) := by
  induction L with
  | nil => intro A B _; left; exact ⟨Nat.zero_le _, rfl⟩
  | cons c L' ih =>
    intro A B h
    cases A with
    | nil =>
      right
      exact ⟨Nat.succ_pos _, h⟩
    | cons a A' =>
      have h' : ciChar c a = true ∧ prefCI L' (A' ++ B) = true := by
        simpa [prefCI, Bool.and_eq_true] using h
      rcases ih A' B h'.2 with ⟨hl, hp⟩ | ⟨hl, hp⟩
      · left
        refine ⟨by simpa using Nat.succ_le_succ hl, ?_⟩
        simp [prefCI, h'.1, hp]
      · right
        exact ⟨by simpa using Nat.succ_lt_succ hl, by simpa using hp⟩

theorem ciInfixB_of_pref_suffix (L : List Char) :
    ∀ (c₁ c₂ content : List Char), c₁ ++ c₂ = content →
      prefCI L c₂ = true → ciInfixB L content = true := by
  intro c₁
  induction c₁ with
  | nil =>
    intro c₂ content hsplit hp
    subst hsplit
    cases c₂ with
    | nil => simpa [ciInfixB] using hp
    | cons x r => simp [ciInfixB, hp]
  | cons a c₁' ih =>
    intro c₂ content hsplit hp
    subst hsplit
    have h1 : ciInfixB L (c₁' ++ c₂) = true := ih c₂ (c₁' ++ c₂) rfl hp
    simp only [List.cons_append, ciInfixB]
    simp [h1]

theorem closing_no_straddle (tag : List Char) (htagc : tag.all isTagChar = true)
    (c₂ D' : List Char) (hne : c₂ ≠ [])
    (h : prefCI ('<' :: '/' :: tag) (c₂ ++ '<' :: D') = true) :
    ('<' :: '/' :: tag).length ≤ c₂.length ∧ prefCI ('<' :: '/' :: tag) c₂ = true := by
  rcases prefCI_append ('<' :: '/' :: tag) c₂ ('<' :: D') h with ⟨hl, hp⟩ | ⟨hl, hp⟩
  · exact ⟨hl, hp⟩
  · exfalso
    rcases hlen : c₂.length with _ | n
    · exact hne (List.length_eq_zero.mp hlen)
    · rw [hlen] at hp
      cases n with
      | zero =>
        have hdrop1 : ('<' :: '/' :: tag).drop 1 = '/' :: tag := rfl
        rw [hdrop1] at hp
        have hp' : ciChar '/' '<' = true ∧ prefCI tag D' = true := by
          simpa [prefCI, Bool.and_eq_true] using hp
        exact absurd hp'.1 (by decide)
      | succ m =>
        have hdrop : ('<' :: '/' :: tag).drop (m + 2) = tag.drop m := rfl
        rw [hdrop] at hp
        have hlen2 : m < tag.length := by
          rw [hlen] at hl
          simp only [List.length_cons] at hl
          omega
        rcases hd : tag.drop m with _ | ⟨x, xs⟩
        · have := List.drop_eq_nil_iff.mp hd
          omega
        · rw [hd] at hp
          have hx' : ciChar x '<' = true ∧ prefCI xs D' = true := by
            simpa [prefCI, Bool.and_eq_true] using hp
          have hx : ciChar x '<' = true := hx'.1
          have hmem : x ∈ tag := by
            have hsub : tag.drop m ⊆ tag := List.drop_subset m tag
            rw [hd] at hsub
            exact hsub (List.mem_cons_self x xs)
          have hxt : isTagChar x = true := by
            rw [List.all_eq_true] at htagc
            exact htagc x hmem
          exact absurd hx (by rw [ciChar_lt_of_tagChar hxt]; simp)

theorem starGreedy_stop (p : Char → Bool) (c : Char) (s : List Char)
    (k : List Char → Option (List Char)) (h : p c = false) :
    starGreedy p (c :: s) k = k (c :: s) := by
  simp [starGreedy, h]

theorem starGreedy_none (p : Char → Bool) (c₀ : Char) (tail : List Char)
    (k : List Char → Option (List Char)) (h₀ : p c₀ = false) :
    ∀ R : List Char, R.all p = true →
      (∀ R₂ R₁, R₁ ++ R₂ = R → k (R₂ ++ c₀ :: tail) = none) →
      starGreedy p (R ++ c₀ :: tail) k = none := by
  intro R
  induction R with
  | nil =>
    intro _ hk
    rw [List.nil_append, starGreedy_stop p c₀ tail k h₀]
    exact hk [] [] rfl
  | cons c R' ih =>
    intro hall hk
    have hc : p c = true := by
      simp only [List.all_cons, Bool.and_eq_true] at hall
      exact hall.1
    have hR' : R'.all p = true := by
      simp only [List.all_cons, Bool.and_eq_true] at hall
      exact hall.2
    have h1 : starGreedy p (R' ++ c₀ :: tail) k = none :=
      ih hR' (fun R₂ R₁ hR => hk R₂ (c :: R₁) (by rw [← hR]; rfl))
    have h2 : k ((c :: R') ++ c₀ :: tail) = none := hk (c :: R') [] rfl
    simp only [List.cons_append] at h2
    simp only [List.cons_append, starGreedy, hc, if_true, List.append_eq, h1, h2,
      Option.none_orElse]

theorem starGreedy_last (p : Char → Bool) (c₀ : Char) (tail : List Char)
    (k : List Char → Option (List Char)) (r : List Char) (h₀ : p c₀ = false) :
    ∀ R : List Char, R.all p = true →
      (∀ R₂ R₁, R₁ ++ R₂ = R → R₁ ≠ [] → k (R₂ ++ c₀ :: tail) = none) →
      k (R ++ c₀ :: tail) = some r →
      starGreedy p (R ++ c₀ :: tail) k = some r := by
  intro R
  cases R with
  | nil =>
    intro _ _ hs
    rw [List.nil_append, starGreedy_stop p c₀ tail k h₀]
    exact hs
  | cons c R' =>
    intro hall hk hs
    have hc : p c = true := by
      simp only [List.all_cons, Bool.and_eq_true] at hall
      exact hall.1
    have hR' : R'.all p = true := by
      simp only [List.all_cons, Bool.and_eq_true] at hall
      exact hall.2
    have h1 : starGreedy p (R' ++ c₀ :: tail) k = none :=
      starGreedy_none p c₀ tail k h₀ R' hR'
        (fun R₂ R₁ hR => hk R₂ (c :: R₁) (by rw [← hR]; rfl) (by simp))
    simp only [List.cons_append, starGreedy, hc, if_true, List.append_eq, h1,
      Option.none_orElse]
    simpa using hs

theorem starLazy_unfold (s : List Char) (k : List Char → Option (List Char)) :
    starLazy s k =
      (k s <|> match s with | [] => none | _ :: rest => starLazy rest k) := by
  cases s <;> rfl

theorem starLazy_exact (k : List Char → Option (List Char)) (T r : List Char)
    (hT : k T = some r) :
    ∀ content : List Char,
      (∀ c₂ c₁, c₁ ++ c₂ = content → c₂ ≠ [] → k (c₂ ++ T) = none) →
      starLazy (content ++ T) k = some r := by
  intro content
  induction content with
  | nil =>
    intro _
    rw [List.nil_append, starLazy_unfold, hT]
    simp
  | cons c ct ih =>
    intro hk
    have h0 : k (c :: (ct ++ T)) = none := by
      have h0' := hk (c :: ct) [] rfl (by simp)
      simpa using h0'
    have h1 : starLazy (ct ++ T) k = some r :=
      ih (fun c₂ c₁ hc hne => hk c₂ (c :: c₁) (by rw [← hc]; rfl) hne)
    rw [List.cons_append, starLazy_unfold, h0]
    simpa using h1

theorem starCap_run (p : Char → Bool) (c₀ : Char) (h₀ : p c₀ = false)
    (k : List Char → List Char → Option (List Char)) (r : List Char) :
    ∀ (run acc tail : List Char), run.all p = true →
      k (acc ++ run) (c₀ :: tail) = some r →
      starCap p acc (run ++ c₀ :: tail) k = some r := by
  intro run
  induction run with
  | nil =>
    intro acc tail _ hs
    rw [List.nil_append]
    simp only [starCap, h₀, Bool.false_eq_true, if_false]
    simpa using hs
  | cons c run' ih =>
    intro acc tail hall hs
    have hc : p c = true := by
      simp only [List.all_cons, Bool.and_eq_true] at hall
      exact hall.1
    have hR : run'.all p = true := by
      simp only [List.all_cons, Bool.and_eq_true] at hall
      exact hall.2
    have h1 : starCap p (acc ++ [c]) (run' ++ c₀ :: tail) k = some r :=
      ih (acc ++ [c]) tail hR (by simpa [List.append_assoc] using hs)
    simp only [List.cons_append, starCap, hc, if_true, List.append_eq, h1,
      Option.some_orElse]

theorem plusCap_run (p : Char → Bool) (c₀ : Char) (h₀ : p c₀ = false)
    (k : List Char → List Char → Option (List Char)) (r : List Char)
    (tag tail : List Char) (htag : tag ≠ []) (hall : tag.all p = true)
    (hs : k tag (c₀ :: tail) = some r) :
    plusCap p (tag ++ c₀ :: tail) k = some r := by
  cases tag with
  | nil => exact absurd rfl htag
  | cons c ts =>
    have hc : p c = true := by
      simp only [List.all_cons, Bool.and_eq_true] at hall
      exact hall.1
    have hts : ts.all p = true := by
      simp only [List.all_cons, Bool.and_eq_true] at hall
      exact hall.2
    simp only [List.cons_append, plusCap, hc, if_true]
    exact starCap_run p c₀ h₀ k r ts [c] tail hts (by simpa using hs)

theorem matchClose_some (tag : List Char) (s r : List Char)
    (h : matchClose tag s = some r) :
    ∃ s₂, s = '<' :: '/' :: s₂ ∧ prefCI tag s₂ = true := by
  unfold matchClose at h
  split at h
  · rename_i a s₂
    refine ⟨s₂, rfl, ?_⟩
    rw [ciLitK_eq] at h
    by_cases hp : prefCI tag s₂ = true
    · exact hp
    · rw [if_neg hp] at h
      exact absurd h (by simp)
  · exact absurd h (by simp)

theorem matchAt_ne (tid : List Char) (c : Char) (s : List Char) (h : ¬ c = '<') :
    matchAt tid (c :: s) = none := by
  unfold matchAt
  split
  · rename_i s₁ heq
    injection heq with h1 h2
    exact absurd h1 h
  · rfl

theorem mkIdElem_append (tag tid content post : List Char) :
    mkIdElem tag tid content ++ post
      = '<' :: (tag ++ (' ' :: 'i' :: 'd' :: '=' :: qc ::
          (tid ++ (qc :: '>' :: (content ++ ('<' :: '/' :: (tag ++ ('>' :: post)))))))) := by
  simp [mkIdElem, List.append_assoc]

theorem matchAt_elem (tag tid content post : List Char)
    (htag : tag ≠ []) (htagc : tag.all isTagChar = true)
    (hid : tid.all (fun c => !isJsWs c && !(c == '*') && !(c == '>')) = true)
    (hcontent : ciInfixB ('<' :: '/' :: tag) content = false) :
    matchAt tid (mkIdElem tag tid content ++ post) = some post := by
  -- the closing-tag continuation succeeds exactly at the element's closer
  have hclose : matchClose tag ('<' :: '/' :: (tag ++ ('>' :: post))) = some post := by
    show ciLitK tag (tag ++ ('>' :: post)) (fun s₃ => starGreedy isJsWs s₃ wsGtCont)
        = some post
    rw [ciLitK_eq, if_pos (prefCI_self_append tag ('>' :: post)), List.drop_left]
    rw [starGreedy_stop isJsWs '>' post wsGtCont (by decide)]
    rfl
  -- and fails at every strictly later start inside the content
  have hfail : ∀ c₂ c₁, c₁ ++ c₂ = content → c₂ ≠ [] →
      matchClose tag (c₂ ++ ('<' :: '/' :: (tag ++ ('>' :: post)))) = none := by
    intro c₂ c₁ hsplit hne
    rcases hmc : matchClose tag (c₂ ++ ('<' :: '/' :: (tag ++ ('>' :: post)))) with _ | r
    · rfl
    · exfalso
      obtain ⟨s₂, hs₂, hpref⟩ := matchClose_some tag _ r hmc
      have hP : prefCI ('<' :: '/' :: tag)
          (c₂ ++ ('<' :: '/' :: (tag ++ ('>' :: post)))) = true := by
        rw [hs₂]
        simp [prefCI, ciChar_refl, hpref]
      have hns := closing_no_straddle tag htagc c₂ ('/' :: (tag ++ ('>' :: post))) hne hP
      have hinf := ciInfixB_of_pref_suffix ('<' :: '/' :: tag) c₁ c₂ content hsplit hns.2
      rw [hcontent] at hinf
      exact Bool.false_ne_true hinf
  have htail : matchTail tag
      (content ++ ('<' :: '/' :: (tag ++ ('>' :: post)))) = some post := by
    unfold matchTail
    exact starLazy_exact (matchClose tag) _ post hclose content hfail
  -- after the quote: the id literal, the backreference, `[^>]*`, `>`, tail
  have hq : matchAfterQuote tag tid qc
      (tid ++ (qc :: '>' :: (content ++ ('<' :: '/' :: (tag ++ ('>' :: post))))))
      = some post := by
    unfold matchAfterQuote
    rw [ciLitK_eq, if_pos (prefCI_self_append tid _), List.drop_left]
    show (if ciChar qc qc then
        starGreedy notGt ('>' :: (content ++ ('<' :: '/' :: (tag ++ ('>' :: post)))))
          (gtCont tag)
      else none) = some post
    rw [ciChar_refl qc, if_pos rfl]
    rw [starGreedy_stop notGt '>' _ (gtCont tag) (by decide)]
    show matchTail tag (content ++ ('<' :: '/' :: (tag ++ ('>' :: post)))) = some post
    exact htail
  -- the id attribute: literal `id=`, quote, id, rest
  have hattr : matchIdAttr tag tid
      ('i' :: 'd' :: '=' :: qc ::
        (tid ++ (qc :: '>' :: (content ++ ('<' :: '/' :: (tag ++ ('>' :: post)))))))
      = some post := by
    unfold matchIdAttr
    have hdata : "id=".data = ['i', 'd', '='] := rfl
    rw [hdata, ciLitK_eq]
    rw [if_pos (by simp [prefCI, ciChar_refl])]
    show (if isQuote qc then matchAfterQuote tag tid qc
        (tid ++ (qc :: '>' :: (content ++ ('<' :: '/' :: (tag ++ ('>' :: post))))))
      else none) = some post
    rw [if_pos (by decide)]
    exact hq
  -- the optional attribute group: the star consumes nothing, the single
  -- whitespace is the space after the tag name
  have hidng : tid.all notStarGt = true := by
    rw [List.all_eq_true] at hid ⊢
    intro c hc
    have h1 := hid c hc
    simp only [Bool.and_eq_true] at h1
    simp [notStarGt, h1.1.2, h1.2]
  have hnwR : ∀ c ∈ ('i' :: 'd' :: '=' :: qc :: (tid ++ [qc])), isJsWs c = false := by
    intro c hc
    simp only [List.mem_cons, List.mem_append, List.mem_singleton, List.not_mem_nil,
      or_false] at hc
    rcases hc with rfl | rfl | rfl | rfl | hc | rfl
    · decide
    · decide
    · decide
    · decide
    · have h1 := List.all_eq_true.mp hid c hc
      simp only [Bool.and_eq_true] at h1
      have h2 := h1.1.1
      cases hx : isJsWs c
      · rfl
      · exfalso
        rw [hx] at h2
        simp at h2
    · decide
  have hallR : (' ' :: 'i' :: 'd' :: '=' :: qc :: (tid ++ [qc])).all notStarGt = true := by
    rw [List.all_eq_true]
    intro c hc
    simp only [List.mem_cons, List.mem_append, List.mem_singleton, List.not_mem_nil,
      or_false] at hc
    rcases hc with rfl | rfl | rfl | rfl | rfl | hc | rfl
    · decide
    · decide
    · decide
    · decide
    · decide
    · exact List.all_eq_true.mp hidng c hc
    · decide
  have hsucc : g2Cont tag tid
      ((' ' :: 'i' :: 'd' :: '=' :: qc :: (tid ++ [qc]))
        ++ '>' :: (content ++ ('<' :: '/' :: (tag ++ ('>' :: post))))) = some post := by
    show (if isJsWs ' ' then matchIdAttr tag tid
        (('i' :: 'd' :: '=' :: qc :: (tid ++ [qc]))
          ++ '>' :: (content ++ ('<' :: '/' :: (tag ++ ('>' :: post)))))
      else none) = some post
    rw [if_pos (by decide)]
    have hre : ('i' :: 'd' :: '=' :: qc :: (tid ++ [qc]))
        ++ '>' :: (content ++ ('<' :: '/' :: (tag ++ ('>' :: post))))
        = 'i' :: 'd' :: '=' :: qc ::
          (tid ++ (qc :: '>' :: (content ++ ('<' :: '/' :: (tag ++ ('>' :: post)))))) := by
      simp [List.append_assoc]
    rw [hre]
    exact hattr
  have hk : ∀ R₂ R₁,
      R₁ ++ R₂ = ' ' :: 'i' :: 'd' :: '=' :: qc :: (tid ++ [qc]) → R₁ ≠ [] →
      g2Cont tag tid (R₂ ++ '>' :: (content ++ ('<' :: '/' :: (tag ++ ('>' :: post)))))
        = none := by
    intro R₂ R₁ hR hne
    cases R₂ with
    | nil =>
      show (if isJsWs '>' then matchIdAttr tag tid
          (content ++ ('<' :: '/' :: (tag ++ ('>' :: post)))) else none) = none
      rw [if_neg (by decide)]
    | cons c R₂' =>
      have hmem : c ∈ ('i' :: 'd' :: '=' :: qc :: (tid ++ [qc])) := by
        cases R₁ with
        | nil => exact absurd rfl hne
        | cons a R₁' =>
          have h2 : a = ' ' ∧ R₁' ++ c :: R₂' = 'i' :: 'd' :: '=' :: qc :: (tid ++ [qc]) := by
            simpa using hR
          rw [← h2.2]
          simp
      have hnw : isJsWs c = false := hnwR c hmem
      show (if isJsWs c then matchIdAttr tag tid
          (R₂' ++ '>' :: (content ++ ('<' :: '/' :: (tag ++ ('>' :: post))))) else none)
        = none
      rw [hnw]
      rfl
  have hstar : starGreedy notStarGt
      ((' ' :: 'i' :: 'd' :: '=' :: qc :: (tid ++ [qc]))
        ++ '>' :: (content ++ ('<' :: '/' :: (tag ++ ('>' :: post)))))
      (g2Cont tag tid) = some post :=
    starGreedy_last notStarGt '>' (content ++ ('<' :: '/' :: (tag ++ ('>' :: post))))
      (g2Cont tag tid) post (by decide)
      (' ' :: 'i' :: 'd' :: '=' :: qc :: (tid ++ [qc])) hallR hk hsucc
  have hg2 : matchG2 tag tid
      (' ' :: 'i' :: 'd' :: '=' :: qc ::
        (tid ++ (qc :: '>' :: (content ++ ('<' :: '/' :: (tag ++ ('>' :: post)))))))
      = some post := by
    have hre : (' ' :: 'i' :: 'd' :: '=' :: qc :: (tid ++ [qc]))
        ++ '>' :: (content ++ ('<' :: '/' :: (tag ++ ('>' :: post))))
        = ' ' :: 'i' :: 'd' :: '=' :: qc ::
          (tid ++ (qc :: '>' :: (content ++ ('<' :: '/' :: (tag ++ ('>' :: post)))))) := by
      simp [List.append_assoc]
    rw [← hre]
    unfold matchG2
    rw [hstar]
    simp
  -- group 1 consumes exactly the tag name, then the rest succeeds
  rw [mkIdElem_append]
  show plusCap isTagChar
      (tag ++ (' ' :: 'i' :: 'd' :: '=' :: qc ::
        (tid ++ (qc :: '>' :: (content ++ ('<' :: '/' :: (tag ++ ('>' :: post))))))))
      (fun tg s₂ => matchG2 tg tid s₂) = some post
  exact plusCap_run isTagChar ' ' (by decide) (fun tg s₂ => matchG2 tg tid s₂) post tag
    ('i' :: 'd' :: '=' :: qc ::
      (tid ++ (qc :: '>' :: (content ++ ('<' :: '/' :: (tag ++ ('>' :: post)))))))
    htag htagc hg2

theorem extractScan_skip (tid : List Char) :
    ∀ (pre rest : List Char), pre.contains '<' = false →
      extractScan tid (pre ++ rest) = extractScan tid rest := by
  intro pre
  induction pre with
  | nil => intro rest _; rw [List.nil_append]
  | cons c pre' ih =>
    intro rest h
    have h' : ('<' == c) = false ∧ pre'.contains '<' = false := by
      simpa only [List.contains_cons, Bool.or_eq_false_iff] using h
    have hc : ¬ c = '<' := by
      intro hcc
      subst hcc
      simpa using h'.1
    have hm : matchAt tid (c :: (pre' ++ rest)) = none := matchAt_ne tid c _ hc
    rw [List.cons_append]
    show scanStep (c :: (pre' ++ rest)) (matchAt tid (c :: (pre' ++ rest)))
        (extractScan tid (pre' ++ rest)) = extractScan tid rest
    rw [hm]
    show extractScan tid (pre' ++ rest) = extractScan tid rest
    exact ih rest h'.2

/-- C6 (amended): for every document made of a prefix without `<`, an
element `<tag id="tid">content</tag>` whose tag name is drawn from the
pattern's name characters, whose id contains no whitespace, `*` or `>`,
and whose content contains no case-insensitive occurrence of `</tag`, and
an arbitrary suffix, the extractor returns exactly the element's outer
markup — the tag name captured generically and the nested content of other
tag names included.  The id comparison is case-insensitive (flag `i`), not
exact, and regex metacharacters in the id are escaped into literals by
`escapeRegExp`. -/
theorem C6_extract (pre tag tid content post : List Char)
    (hpre : pre.contains '<' = false)
    (htag : tag ≠ [])
    (htagc : tag.all isTagChar = true)
    (hid : tid.all (fun c => !isJsWs c && !(c == '*') && !(c == '>')) = true)
    (hcontent : ciInfixB ('<' :: '/' :: tag) content = false) :
    extractElementOuterHTMLById (pre ++ (mkIdElem tag tid content ++ post)) tid
      = mkIdElem tag tid content := by
  unfold extractElementOuterHTMLById
  rw [extractScan_skip tid pre _ hpre]
  have hmatch := matchAt_elem tag tid content post htag htagc hid hcontent
  rw [mkIdElem_append] at hmatch ⊢
  simp only [extractScan]
  rw [hmatch]
  simp only [scanStep]
  rw [← mkIdElem_append tag tid content post]
  have hlen : (mkIdElem tag tid content ++ post).length - post.length
      = (mkIdElem tag tid content).length := by
    simp [List.length_append]
  rw [hlen, List.take_left]

/-- C6 counterexample: the id comparison is case-insensitive, not exact —
extraction with target `x` from a document whose only element has id `X`
returns that element's markup, where the claim requires the empty result;
conversely an element whose id exactly equals the target is missed when an
earlier attribute value contains `*`, because the attribute piece of the
pattern is `[^*>]*\s`, where the claim requires the element's markup. -/
theorem C6_counterexample :
    extractElementOuterHTMLById "<p id=\x22X\x22>hi</p>".data "x".data
      = "<p id=\x22X\x22>hi</p>".data
    ∧ extractElementOuterHTMLById "<p id=\x22X\x22>hi</p>".data "x".data ≠ []
    ∧ extractElementOuterHTMLById "<div class=\x22a*b\x22 id=\x22x\x22>y</div>".data
        "x".data = [] := by decide

theorem C6_witness :
    extractElementOuterHTMLById
        ("Hello ".data ++ (mkIdElem "section".data "optimized-for-ai".data
          "ABC<b>n</b>".data ++ " rest".data)) "optimized-for-ai".data
      = mkIdElem "section".data "optimized-for-ai".data "ABC<b>n</b>".data :=
  C6_extract "Hello ".data "section".data "optimized-for-ai".data "ABC<b>n</b>".data
    " rest".data (by decide) (by decide) (by decide) (by decide) (by decide)

def alt5b : Responsem :=
  ⟨200, "OK", [], "<div id=\x22optimized-for-ai\x22>X</div>".data⟩

def orig5b : Responsem :=
  ⟨302, "Found", [("Location", ""), ("Content-Type", "text/html")],
    "<body>A</body>".data⟩

def env5b : Env := ⟨"org1", FetchOutcome.ok alt5b, FetchOutcome.ok orig5b,
  FetchOutcome.ok ⟨200, "OK", [("Content-Type", "text/html")], []⟩,
  sampleResolve, TelemetryOutcome.pending⟩

def req5b : Reqm := ⟨sampleURL, "GET", [("User-Agent", "GPTBot/1.0")], none⟩

/-- C5 counterexample: a 3xx primary response carrying a present-but-empty
`Location` header.  The source's truthiness test `if (loc)` (line 172)
treats the empty value as absent, so no re-fetch is issued — the trace
has only the secondary-store and primary-origin calls — and the inject
decision is computed from the first response: its 302 status, headers and
body flow into the final injected response, even though a second fetch
outcome was available.  The claim requires one re-fetch and a decision
based on the second response whenever the 3xx response has a `Location`
header. -/
theorem C5_counterexample :
    (300 ≤ orig5b.status ∧ orig5b.status < 400)
    ∧ hGet orig5b.headers "Location" = some ""
    ∧ (handle env5b req5b).calls.length = 2
    ∧ (handle env5b req5b).response
        = HandlerResponse.finalized (finalizeResponse
            ⟨302, "Found", orig5b.headers,
              injectHTML orig5b.body
                (extractElementOuterHTMLById alt5b.body optimizedId)⟩ true true) := by
  refine ⟨by decide, by decide, by decide, by decide⟩
